import Mathlib

/-
Shallow embedding of the octoka gateway (Rust) for verification.

Each definition mirrors one function of the source tree:
  * `PathParts.parse` and its accessors — src/opencast/mod.rs
  * `TokenInfo.from_payload`, `is_allowed` — src/jwt/decode.rs, src/auth.rs
  * `Algo.from_str`, `Key.from_jwk`, `verify_signature` — src/jwt/crypto.rs
  * `verify_claims` — src/jwt/decode.rs
  * `backup_refresh`, `background_refresh_selection` — src/jwt/keys.rs
  * `etagChars`, `is_unmodified`, `serve_file`, `handle_io_error`,
    `handle` — src/http/fs.rs, src/http/mod.rs

Strings are modelled as lists of characters (Rust indexes byte slices; all
relevant comparisons are exact, so the character-list view is faithful).
Instants are modelled as integers counting milliseconds.  Effects that a
function merely consumes (network fetches, the file system, cryptographic
verification) appear as explicit parameters holding their outcome.
-/

/-! ## Path parser (src/opencast/mod.rs) -/

/-- Rust `str::starts_with` on character lists: first argument is the
haystack, second the candidate leading piece. -/
def startsWithChars : List Char → List Char → Bool
  | _, [] => true
  | [], _ :: _ => false
  | c :: cs, p :: ps => c == p && startsWithChars cs ps

/-- Rust `str::trim_matches('/')`: remove all leading and trailing slashes. -/
def trimSlashes (l : List Char) : List Char :=
  ((l.dropWhile (· == '/')).reverse.dropWhile (· == '/')).reverse

/-- Rust `str::find('/')`: index of the first slash, if any. -/
def findSlashIdx : List Char → Option Nat
  | [] => none
  | c :: rest => if c == '/' then some 0 else (findSlashIdx rest).map (· + 1)

/-- Number of values of a `u16`: the parser stores its indices in `u16`. -/
def U16_SIZE : Nat := 2 ^ 16

/-- Number of values of a `u64`: `exp`, `nbf`, the clock and the skew are
`u64` seconds. -/
def U64_SIZE : Nat := 2 ^ 64

/-- The `find_after` closure of `PathParts::parse`.  Rust slicing
`path[start+1..]` panics when `start + 1 > path.len()`, and
`u16::try_from(pos).unwrap()` panics when the found position does not fit a
`u16`; both panics are modelled as `Except.error ()`.  The additions
`pos + start + 1` are performed in `u16`, which wraps in release builds,
hence the `% U16_SIZE`. -/
def findAfter (path : List Char) (start : Nat) : Except Unit (Option Nat) :=
  if start + 1 > path.length then .error ()
  else match findSlashIdx (path.drop (start + 1)) with
    | none => .ok none
    | some pos =>
      if pos ≥ U16_SIZE then .error ()
      else .ok (some ((pos + start + 1) % U16_SIZE))

/-- `PathParts` of src/opencast/mod.rs: the original path plus four indices
that (in the intended case) point at slashes. -/
structure PathParts where
  path : List Char
  start_org : Nat
  start_channel : Nat
  start_event_id : Nat
  start_suffix : Nat
deriving DecidableEq

/-- Outcome of `PathParts::parse`: `crash` models a Rust panic
(out-of-bounds string index), `fail` models `None`. -/
inductive ParseResult
  | crash
  | fail
  | ok (parts : PathParts)
deriving DecidableEq

/-- `PathParts::parse`.  The configured path prefixes are passed as raw
configuration strings; the function trims surrounding slashes from each,
picks the first that the path (after its leading slash) starts with, and
then locates three further slashes.  The indices live in `u16`:
`u16::try_from(prefix.len()).unwrap()` panics (`.crash`) for a matched
prefix longer than 65535 bytes, and the `+ 1` is a `u16` addition that
wraps in release builds, hence the `% U16_SIZE`. -/
def PathParts.parse (path : List Char) (pathPfxs : List (List Char)) : ParseResult :=
  if path.head? ≠ some '/' then .fail else
  match (pathPfxs.map trimSlashes).find? (fun p => startsWithChars (path.drop 1) p) with
  | none => .fail
  | some pre =>
    if pre.length ≥ U16_SIZE then .crash else
    let start_org := (pre.length + 1) % U16_SIZE
    match findAfter path start_org with
    | .error _ => .crash
    | .ok none => .fail
    | .ok (some start_channel) =>
      match findAfter path start_channel with
      | .error _ => .crash
      | .ok none => .fail
      | .ok (some start_event_id) =>
        match findAfter path start_event_id with
        | .error _ => .crash
        | .ok none => .fail
        | .ok (some start_suffix) =>
          .ok ⟨path, start_org, start_channel, start_event_id, start_suffix⟩

/-- Accessor `prefix()`: `path[1..start_org]`. -/
def PathParts.pfxPart (p : PathParts) : List Char :=
  (p.path.drop 1).take (p.start_org - 1)

/-- Accessor `org()`: `path[start_org+1..start_channel]`. -/
def PathParts.org (p : PathParts) : List Char :=
  (p.path.drop (p.start_org + 1)).take (p.start_channel - p.start_org - 1)

/-- Accessor `channel()`: `path[start_channel+1..start_event_id]`. -/
def PathParts.channel (p : PathParts) : List Char :=
  (p.path.drop (p.start_channel + 1)).take (p.start_event_id - p.start_channel - 1)

/-- Accessor `event_id()`: `path[start_event_id+1..start_suffix]`. -/
def PathParts.event_id (p : PathParts) : List Char :=
  (p.path.drop (p.start_event_id + 1)).take (p.start_suffix - p.start_event_id - 1)

/-- Accessor `suffix()`: `path[start_suffix+1..]`. -/
def PathParts.sfxPart (p : PathParts) : List Char :=
  p.path.drop (p.start_suffix + 1)

/-- The concatenation named by the round-trip property:
"/" + prefix() + "/" + org() + "/" + channel() + "/" + event_id() + "/" + suffix(). -/
def PathParts.rebuild (p : PathParts) : List Char :=
  ('/' :: p.pfxPart) ++ ('/' :: p.org) ++ ('/' :: p.channel)
    ++ ('/' :: p.event_id) ++ ('/' :: p.sfxPart)

/-- A well-formed request path "/P/a/b/c/d" built from a configured piece and
four further segments (the last one being the tail suffix). -/
def mkPath (P a b c d : List Char) : List Char :=
  ('/' :: P) ++ ('/' :: a) ++ ('/' :: b) ++ ('/' :: c) ++ ('/' :: d)

/-! ## Token payload projection and authorization (src/jwt/decode.rs, src/auth.rs) -/

/-- Reasons to reject a JWT (enum `JwtError` of src/jwt/decode.rs). -/
inductive JwtError
  | invalidJwt
  | invalidJson
  | unsupportedAlg
  | noSuitableKey
  | invalidSignature
  | expMissing
  | expired
  | algoMismatch
  | notValidYet
deriving DecidableEq

/-- Deserialized JWT payload (struct `Payload` of src/jwt/decode.rs).  The
`oc` map is held as an association list; the source iterates a `HashMap`,
whose order is unspecified. -/
structure Payload where
  exp : Option Nat
  nbf : Option Nat
  roles : Option (List String)
  oc : Option (List (String × List String))

/-- Rust `str::split_once(c)`: split at the first occurrence of `c`. -/
def splitOnceChar (c : Char) : List Char → Option (List Char × List Char)
  | [] => none
  | x :: xs =>
    if x == c then some ([], xs)
    else match splitOnceChar c xs with
      | none => none
      | some (a, b) => some (x :: a, b)

/-- `item.split_once(':')` on strings. -/
def splitOnceColon (s : String) : Option (String × String) :=
  (splitOnceChar ':' s.data).map (fun ab => (⟨ab.1⟩, ⟨ab.2⟩))

/-- The `oc`-claim loop of `TokenInfo::from_payload`: keys of kind "e" whose
action list contains "read" contribute their id; kinds "s"/"p" and unknown
kinds contribute nothing (the source only differs in what it logs). -/
def collectReadableEvents (acc : List String) : List (String × List String) → List String
  | [] => acc
  | (item, actions) :: rest =>
    match splitOnceColon item with
    | none => collectReadableEvents acc rest
    | some (kind, id) =>
      if kind = "e" then
        if actions.any (fun a => a == "read")
        then collectReadableEvents (acc ++ [id]) rest
        else collectReadableEvents acc rest
      else collectReadableEvents acc rest

/-- Processed authorization grant (struct `TokenInfo` of src/jwt/mod.rs). -/
structure TokenInfo where
  is_admin : Bool
  readable_events : List String

/-- `TokenInfo::from_payload` of src/jwt/decode.rs. -/
def TokenInfo.from_payload (p : Payload) : TokenInfo :=
  { is_admin := (p.roles.getD []).any (fun r => r == "ROLE_ADMIN"),
    readable_events := collectReadableEvents [] (p.oc.getD []) }

/-- Outcome of racing `decode_and_verify` against the 2.5 s timer in
`is_allowed`: the timer won, the decode failed, or it yielded a payload. -/
inductive DecodeOutcome
  | timeout
  | failed (e : JwtError)
  | ok (p : Payload)

/-- `is_allowed` of src/auth.rs, with the raced decode outcome passed in as a
parameter (the decode itself touches network and cryptography). -/
def is_allowed (event_id : String) (jwt : Option String) (decoded : DecodeOutcome) : Bool :=
  match jwt with
  | none => false
  | some _ =>
    match decoded with
    | .timeout => false
    | .failed _ => false
    | .ok p =>
      let info := TokenInfo.from_payload p
      if info.is_admin then true
      else info.readable_events.any (fun e => e == event_id)

/-! ## Signature algorithms and key conversion (src/jwt/crypto.rs) -/

/-- Accepted signature algorithms (enum `Algo` of src/jwt/crypto.rs). -/
inductive Algo
  | ES256
  | ES384
deriving DecidableEq

/-- `Algo::from_str` of src/jwt/crypto.rs. -/
def Algo.from_str (s : String) : Option Algo :=
  match s with
  | "ES256" => some .ES256
  | "ES384" => some .ES384
  | _ => none

/-- A pool key as seen by `verify_signature`: its algorithm tag plus the
outcome of the cryptographic check against the fixed message/signature. -/
structure MKey where
  algo : Algo
  verifies : Bool

/-- The key loop of `verify_signature`: skip keys of another algorithm,
return success on the first verifying key, and remember whether any fitting
key was tried. -/
def verifyKeysLoop (algo : Algo) : List MKey → Bool → Except JwtError Unit
  | [], found => if found then .error .invalidSignature else .error .noSuitableKey
  | k :: rest, found =>
    if k.algo ≠ algo then verifyKeysLoop algo rest found
    else if k.verifies then .ok ()
    else verifyKeysLoop algo rest true

/-- `Context::verify_signature` of src/jwt/crypto.rs.  `sigDecodeOk` is the
outcome of base64-decoding the signature. -/
def verify_signature (alg : String) (sigDecodeOk : Bool) (keys : List MKey) :
    Except JwtError Unit :=
  match Algo.from_str alg with
  | none => .error .unsupportedAlg
  | some algo =>
    if sigDecodeOk then verifyKeysLoop algo keys false
    else .error .invalidJwt

/-- `use` field of a JWK (enum `KeyUsage` of src/jwt/jwks.rs). -/
inductive KeyUsage
  | signature
  | encryption
deriving DecidableEq

/-- Cryptographic data of a JWK as matched by `Key::from_jwk` of
src/jwt/crypto.rs: an elliptic-curve descriptor (curve name plus whether the
point material parses as a public key), or an unsupported kind. -/
inductive KeyData
  | ec (crv : String) (parsesAsKey : Bool)
  | oct
  | rsa

/-- A JWK descriptor as consumed by `Key::from_jwk`. -/
structure Jwk where
  use_ : Option KeyUsage
  alg : Option String
  kid : Option String
  key_data : KeyData

/-- Verification key variants constructed by `Key::from_jwk`. -/
inductive CryptoKey
  | es256
  | es384
deriving DecidableEq

/-- `Key::from_jwk` of src/jwt/crypto.rs. -/
def Key.from_jwk (jwk : Jwk) : Except String CryptoKey :=
  if (match jwk.use_ with | some u => u != KeyUsage.signature | none => false : Bool) then
    .error "Field use of key is not sig"
  else match jwk.key_data with
  | .ec crv parsesAsKey =>
    if crv = "P-256" then
      if (match jwk.alg with | some a => a != "ES256" | none => false : Bool) then
        .error "curve type P-256 does not match alg field"
      else if parsesAsKey then .ok .es256
      else .error "failed to convert JWK to public key"
    else if crv = "P-384" then
      if (match jwk.alg with | some a => a != "ES384" | none => false : Bool) then
        .error "curve type P-384 does not match alg field"
      else if parsesAsKey then .ok .es384
      else .error "failed to convert JWK to public key"
    else .error "curve type not supported"
  | .oct => .error "symmetric keys not supported"
  | .rsa => .error "RSA keys not supported"

/-! ## Time-claim validation (src/jwt/decode.rs) -/

/-- `Context::verify_claims` of src/jwt/decode.rs.  `now` is the POSIX
timestamp in seconds, read once per token.  The sums
`exp + allowed_clock_skew` and `now + allowed_clock_skew` are `u64`
additions, which wrap in release builds, hence the `% U64_SIZE`. -/
def verify_claims (exp nbf : Option Nat) (allowed_clock_skew now : Nat) :
    Except JwtError Unit :=
  match exp with
  | none => .error .expMissing
  | some e =>
    if (e + allowed_clock_skew) % U64_SIZE < now then .error .expired
    else match nbf with
      | some n =>
        if n > (now + allowed_clock_skew) % U64_SIZE then .error .notValidYet
        else .ok ()
      | none => .ok ()

/-! ## Key manager: backup refresh and background refresh (src/jwt/keys.rs) -/

/-- `BACKUP_REFRESH_RATE_LIMIT` (15 s), in milliseconds. -/
def BACKUP_REFRESH_RATE_LIMIT : Int := 15000

/-- Observable effect of one `backup_refresh` call: its return value, the
recorded last-backup-refresh instant afterwards, and whether it fetched. -/
structure BackupStep where
  result : Bool
  new_last : Int
  fetched : Bool
deriving DecidableEq

/-- `KeyManager::backup_refresh` of src/jwt/keys.rs as a sequential state
step.  `last` is the recorded instant, `readTime` the instant of the first
(read-lock) check, `writeTime` the instant of the double-check under the
write lock, `doneTime` the instant recorded after `refresh_many` returns. -/
def backup_refresh (last readTime writeTime doneTime : Int) : BackupStep :=
  if readTime - last < BACKUP_REFRESH_RATE_LIMIT then ⟨false, last, false⟩
  else if writeTime - last < BACKUP_REFRESH_RATE_LIMIT then ⟨false, last, false⟩
  else ⟨true, doneTime, true⟩

/-- `KeyManager::new` initializes `last_backup_refresh` with
`Instant::now()`, i.e. the construction instant. -/
def KeyManager_new_last_backup_refresh (constructionTime : Int) : Int :=
  constructionTime

/-- Completion instants of the fetching `backup_refresh` executions of a
sequential trace of calls, each call given by its three instants. -/
def runBackupRefresh (last : Int) : List (Int × Int × Int) → List Int
  | [] => []
  | (t1, t2, t3) :: rest =>
    let step := backup_refresh last t1 t2 t3
    if step.fetched then t3 :: runBackupRefresh step.new_last rest
    else runBackupRefresh step.new_last rest

/-- A sequential trace: each call observes nondecreasing instants and the
next call starts no earlier than the previous one ended. -/
def validCalls : Int → List (Int × Int × Int) → Prop
  | _, [] => True
  | t0, (t1, t2, t3) :: rest => t0 ≤ t1 ∧ t1 ≤ t2 ∧ t2 ≤ t3 ∧ validCalls t3 rest

/-- `BACKGROUND_REFRESH_LEAD_TIME` (3 s), in milliseconds. -/
def BACKGROUND_REFRESH_LEAD_TIME : Int := 3000

/-- A key source with its last-fetch instant (struct `KeySource` of
src/jwt/keys.rs); `url` is an identifying tag. -/
structure KeySourceM where
  last_fetch : Int
  url : Nat
deriving DecidableEq

/-- `KeySource::expiry`: `last_fetch + key_cache_duration`. -/
def KeySourceM.expiry (cacheDuration : Int) (s : KeySourceM) : Int :=
  s.last_fetch + cacheDuration

/-- The source selection of one `KeyManager::background_refresh` iteration
after waking: `threshold = now - LEAD_TIME - 500ms` and every source with
`expiry > threshold` is refreshed. -/
def background_refresh_selection (cacheDuration now : Int) (sources : List KeySourceM) :
    List KeySourceM :=
  let threshold := now - BACKGROUND_REFRESH_LEAD_TIME - 500
  sources.filter (fun s => threshold < s.expiry cacheDuration)

/-- The wake-up instant of one background-refresh iteration:
`earliest expiry - lead time` (`sleep_until` target); `none` when there are
no sources (the source `expect`s at least one). -/
def background_refresh_wake (cacheDuration : Int) (sources : List KeySourceM) : Option Int :=
  ((sources.map (KeySourceM.expiry cacheDuration)).min?).map
    (fun e => e - BACKGROUND_REFRESH_LEAD_TIME)

/-! ## File responder and request dispatcher (src/http/fs.rs, src/http/mod.rs) -/

/-- I/O error kinds distinguished by `handle_io_error` of src/http/fs.rs. -/
inductive IoErrorKind
  | notFound
  | isADirectory
  | invalidData
  | invalidFilename
  | timedOut
  | resourceBusy
  | permissionDenied
  | other
deriving DecidableEq

/-- `handle_io_error` of src/http/fs.rs: the status code of the produced
error response. -/
def handle_io_error : IoErrorKind → Nat
  | .notFound => 404
  | .isADirectory => 404
  | .invalidData => 400
  | .invalidFilename => 400
  | .timedOut => 503
  | .resourceBusy => 503
  | .permissionDenied => 500
  | .other => 500

/-- File metadata used by the responder: mtime in milliseconds since the
epoch, size in bytes, and the POSIX inode number. -/
structure FileMeta where
  mtime_ms : Nat
  size : Nat
  inode : Nat
deriving DecidableEq

/-- The `etag` function of src/http/fs.rs on POSIX:
`"<mtime_ms>:<size>:<inode>"` surrounded by double quotes. -/
def etagChars (mtime_ms size inode : Nat) : List Char :=
  '"' :: (Nat.toDigits 10 mtime_ms ++ (':' :: (Nat.toDigits 10 size
    ++ (':' :: (Nat.toDigits 10 inode ++ ['"'])))))

/-- Rust `u8::is_ascii_whitespace`. -/
def isAsciiWs (c : Char) : Bool :=
  c == ' ' || c == '\t' || c == '\n' || c == '\x0c' || c == '\r'

/-- Rust `[u8]::trim_ascii`. -/
def trimAsciiChars (l : List Char) : List Char :=
  ((l.dropWhile isAsciiWs).reverse.dropWhile isAsciiWs).reverse

/-- Rust `strip_prefix(b"W/").unwrap_or(tag)`. -/
def stripWeakTag (l : List Char) : List Char :=
  if startsWithChars l ['W', '/'] then l.drop 2 else l

/-- Rust `[u8]::split(|b| *b == b',')`. -/
def splitOnComma : List Char → List (List Char)
  | [] => [[]]
  | c :: rest =>
    if c == ',' then [] :: splitOnComma rest
    else match splitOnComma rest with
      | [] => [[c]]
      | h :: t => (c :: h) :: t

/-- `is_unmodified` of src/http/fs.rs.  `if_modified_since` is the parsed
HTTP date of the header (whole seconds; `none` when absent or unparsable);
the mtime comparison `mtime < if_modified_since` is taken at millisecond
precision against the whole-second header value. -/
def is_unmodified (if_none_match : Option (List Char)) (if_modified_since : Option Nat)
    (etag : List Char) (mtime_ms : Nat) : Bool :=
  match if_none_match with
  | some v =>
    if v = ['*'] then true
    else ((splitOnComma v).map (fun t => stripWeakTag (trimAsciiChars t))).any
      (fun t => t == etag)
  | none =>
    match if_modified_since with
    | some t => decide (mtime_ms < t * 1000)
    | none => false

/-- `fmt_http_date` renders with one-second resolution: the seconds value of
the Last-Modified header of a file with the given mtime. -/
def lastModifiedSeconds (mtime_ms : Nat) : Nat :=
  mtime_ms / 1000

/-- Outcome of `HttpRange::parse_bytes` on the Range header. -/
inductive RangeHeader
  | single (start length : Nat)
  | multi
  | invalid
  | noOverlap
deriving DecidableEq

/-- The three body shapes of the `Body` enum of src/http/mod.rs. -/
inductive BodyKind
  | empty
  | tiny
  | file
deriving DecidableEq

/-- Inputs and environment outcomes of one `serve_file` call
(src/http/fs.rs): results of the file-system steps, the traversal check,
and the conditional-GET/Range headers of the request. -/
structure ServeFileIn where
  canonicalizeRes : Except IoErrorKind Unit
  escapesEventDir : Bool
  openRes : Except IoErrorKind Unit
  metadataRes : Except IoErrorKind FileMeta
  if_none_match : Option (List Char)
  if_modified_since : Option Nat
  rangeHeader : Option RangeHeader
  seekRes : Except IoErrorKind Unit

/-- `serve_file` of src/http/fs.rs: status code and body shape of the
response. -/
def serve_file (i : ServeFileIn) : Nat × BodyKind :=
  match i.canonicalizeRes with
  | .error e => (handle_io_error e, .tiny)
  | .ok _ =>
    if i.escapesEventDir then (400, .tiny)
    else match i.openRes with
    | .error e => (handle_io_error e, .tiny)
    | .ok _ =>
      match i.metadataRes with
      | .error e => (handle_io_error e, .tiny)
      | .ok m =>
        if is_unmodified i.if_none_match i.if_modified_since
            (etagChars m.mtime_ms m.size m.inode) m.mtime_ms then (304, .empty)
        else match i.rangeHeader with
        | some (.single _ _) =>
          (match i.seekRes with
          | .error e => (handle_io_error e, .tiny)
          | .ok _ => (206, .file))
        | some .multi => (400, .tiny)
        | some .invalid => (400, .tiny)
        | some .noOverlap => (416, .tiny)
        | none => (200, .file)

/-- Request method as distinguished by `handle` of src/http/mod.rs. -/
inductive MethodM
  | options
  | get
  | other
deriving DecidableEq

/-- Outcome of the upstream probe sent by `ask_opencast`. -/
inductive OcProbe
  | ok2xx
  | status404
  | otherStatus
  | netError
  | timeout
deriving DecidableEq

/-- `http.on_deny` response shapes. -/
inductive OnDenyM
  | empty
  | xAccelRedirect
deriving DecidableEq

/-- `http.on_allow` response shapes. -/
inductive OnAllowM
  | empty
  | file
  | xAccelRedirect
deriving DecidableEq

/-- `opencast.fallback` modes. -/
inductive FallbackModeM
  | none
  | head
  | get
deriving DecidableEq

/-- `ask_opencast` of src/http/mod.rs: either a response that is returned
directly (502 network error, 504 timeout, 404 passed through) or the
allow/deny verdict from the upstream status. -/
def ask_opencast (probe : OcProbe) : Except Nat Bool :=
  match probe with
  | .netError => .error 502
  | .timeout => .error 504
  | .status404 => .error 404
  | .ok2xx => .ok true
  | .otherStatus => .ok false

/-- Inputs and environment outcomes of one `handle` call
(src/http/mod.rs): request method, path-parse success, the JWT
authorization verdict, fallback configuration and probe outcome, the
configured response shapes, and the file-responder environment. -/
structure HandleIn where
  method : MethodM
  parseOk : Bool
  allowedByJwt : Bool
  fallback : FallbackModeM
  ocProbe : OcProbe
  onDeny : OnDenyM
  onAllow : OnAllowM
  fileReq : ServeFileIn

/-- `handle` of src/http/mod.rs: the status code of the response. -/
def handle (h : HandleIn) : Nat :=
  if h.method = .options then 204
  else if h.method ≠ .get then 405
  else if h.parseOk = false then 400
  else
    let step : Except Nat Bool :=
      if h.allowedByJwt = false ∧ h.fallback ≠ .none then ask_opencast h.ocProbe
      else .ok h.allowedByJwt
    match step with
    | .error code => code
    | .ok allowed =>
      if allowed = false then
        match h.onDeny with
        | .empty => 403
        | .xAccelRedirect => 204
      else
        if h.onAllow = .file then (serve_file h.fileReq).1
        else 204

/-- Status codes claimed as the complete wire-output set in the spec. -/
def claimedStatusSet : List Nat :=
  [200, 204, 206, 304, 400, 403, 404, 405, 416, 500, 502, 504]

/-- The wire-output set as amended: the source additionally produces 503
(TimedOut and ResourceBusy file-system errors). -/
def amendedStatusSet : List Nat :=
  [200, 204, 206, 304, 400, 403, 404, 405, 416, 500, 502, 503, 504]

/-! ## Helper lemmas -/

theorem backup_refresh_eq_skip {last t1 t2 t3 : Int}
    (h : t1 - last < BACKUP_REFRESH_RATE_LIMIT) :
    backup_refresh last t1 t2 t3 = ⟨false, last, false⟩ := by
  simp [backup_refresh, h]

theorem backup_refresh_eq_go {last t1 t2 t3 : Int}
    (h1 : ¬ t1 - last < BACKUP_REFRESH_RATE_LIMIT)
    (h2 : ¬ t2 - last < BACKUP_REFRESH_RATE_LIMIT) :
    backup_refresh last t1 t2 t3 = ⟨true, t3, true⟩ := by
  simp [backup_refresh, h1, h2]

theorem runBackupRefresh_lower :
    ∀ (calls : List (Int × Int × Int)) (last t0 : Int), last ≤ t0 → validCalls t0 calls →
      ∀ x ∈ runBackupRefresh last calls, last + BACKUP_REFRESH_RATE_LIMIT ≤ x := by
  intro calls
  induction calls with
  | nil =>
    intro last t0 _ _ x hx
    simp [runBackupRefresh] at hx
  | cons head rest ih =>
    obtain ⟨t1, t2, t3⟩ := head
    intro last t0 hle hv x hx
    obtain ⟨h01, h12, h23, hrest⟩ := hv
    by_cases h1 : t1 - last < BACKUP_REFRESH_RATE_LIMIT
    · rw [runBackupRefresh, backup_refresh_eq_skip h1] at hx
      simp only [Bool.false_eq_true, if_false] at hx
      exact ih last t3 (by omega) hrest x hx
    · by_cases h2 : t2 - last < BACKUP_REFRESH_RATE_LIMIT
      · exact absurd h2 (by omega)
      · rw [runBackupRefresh, backup_refresh_eq_go h1 h2] at hx
        simp only [if_true, List.mem_cons] at hx
        rcases hx with rfl | hx
        · omega
        · have := ih t3 t3 le_rfl hrest x hx
          omega

theorem runBackupRefresh_sep :
    ∀ (calls : List (Int × Int × Int)) (last t0 : Int), last ≤ t0 → validCalls t0 calls →
      (runBackupRefresh last calls).Pairwise
        (fun a b => a + BACKUP_REFRESH_RATE_LIMIT ≤ b) := by
  intro calls
  induction calls with
  | nil =>
    intro last t0 _ _
    simp [runBackupRefresh]
  | cons head rest ih =>
    obtain ⟨t1, t2, t3⟩ := head
    intro last t0 hle hv
    obtain ⟨h01, h12, h23, hrest⟩ := hv
    by_cases h1 : t1 - last < BACKUP_REFRESH_RATE_LIMIT
    · rw [runBackupRefresh, backup_refresh_eq_skip h1]
      simp only [Bool.false_eq_true, if_false]
      exact ih last t3 (by omega) hrest
    · by_cases h2 : t2 - last < BACKUP_REFRESH_RATE_LIMIT
      · exact absurd h2 (by omega)
      · rw [runBackupRefresh, backup_refresh_eq_go h1 h2]
        simp only [if_true]
        exact List.Pairwise.cons
          (fun b hb => runBackupRefresh_lower rest t3 t3 le_rfl hrest b hb)
          (ih t3 t3 le_rfl hrest)

/-! ## Claim theorems -/

/-- C3: the spec claims `PathParts::parse` fails (returns no result) when
fewer than four post-prefix segments are present, in particular on the path
consisting of exactly a slash plus a configured prefix.  On that exact path
the source instead panics: `find_after(start_org)` slices `path[start_org+1..]`
with `start_org + 1` one past the end of the string.  The theorem evaluates
the embedded parser at the failing input (configured prefixes `["/static"]`,
request path `"/static"`) and shows it reaches the panic, while the same
path with a trailing slash returns `None` as documented. -/
theorem parse_crash_on_bare_config_path :
    PathParts.parse ("/static".data) [("/static".data)] = ParseResult.crash
    ∧ PathParts.parse ("/static/".data) [("/static".data)] = ParseResult.fail := by
  decide

/-- C4: the spec claims one background-refresh iteration refreshes exactly
the sources whose expiry is at most 500 ms after the lead-time threshold
(expiry ≤ wake + 3 s + 500 ms).  The source filters `expiry > now - 3 s - 500 ms`,
which keeps essentially every source.  Failing input: cache duration 600 s,
one source fetched 597 s ago (expiry 3 s after wake) and one fetched just now
(expiry 600 s after wake); at wake instant 0 the code refreshes both, although
the second source's expiry 600000 is far beyond the claimed cut-off 3500. -/
theorem background_refresh_selection_includes_fresh_source :
    background_refresh_wake 600000 [⟨-597000, 0⟩, ⟨0, 1⟩] = some 0
    ∧ background_refresh_selection 600000 0 [⟨-597000, 0⟩, ⟨0, 1⟩]
        = [⟨-597000, 0⟩, ⟨0, 1⟩]
    ∧ KeySourceM.expiry 600000 ⟨0, 1⟩ = 600000
    ∧ ¬ KeySourceM.expiry 600000 ⟨0, 1⟩ ≤ 0 + BACKGROUND_REFRESH_LEAD_TIME + 500 := by
  decide

/-- C5: `backup_refresh` returns `false` immediately and performs no fetch
when the recorded last backup refresh lies less than 15 s before the check;
otherwise (in a sequential execution, where the double-check under the write
lock sees an elapsed time at least as large) it fetches, records the
completion instant and returns `true`; and along any sequential trace of
calls the completion instants of the fetching executions are pairwise at
least 15 s apart. -/
theorem backup_refresh_rate_limited :
    (∀ last t1 t2 t3 : Int, t1 - last < BACKUP_REFRESH_RATE_LIMIT →
      backup_refresh last t1 t2 t3 = ⟨false, last, false⟩)
    ∧ (∀ last t1 t2 t3 : Int, BACKUP_REFRESH_RATE_LIMIT ≤ t1 - last → t1 ≤ t2 →
      backup_refresh last t1 t2 t3 = ⟨true, t3, true⟩)
    ∧ (∀ (last : Int) (calls : List (Int × Int × Int)), validCalls last calls →
      (runBackupRefresh last calls).Pairwise
        (fun a b => a + BACKUP_REFRESH_RATE_LIMIT ≤ b)) := by
  refine ⟨?_, ?_, ?_⟩
  · intro last t1 t2 t3 h
    exact backup_refresh_eq_skip h
  · intro last t1 t2 t3 h1 h2
    exact backup_refresh_eq_go (by omega) (by omega)
  · intro last calls hv
    exact runBackupRefresh_sep calls last last le_rfl hv

/-- Witness for C5: concrete instances of all three parts of the theorem. -/
theorem backup_refresh_rate_limited_witness :
    backup_refresh 0 1000 1000 1000 = ⟨false, 0, false⟩
    ∧ backup_refresh 0 20000 20001 20002 = ⟨true, 20002, true⟩
    ∧ (runBackupRefresh 0
        [(20000, 20001, 20002), (30000, 30001, 30002), (36000, 36001, 36002)]).Pairwise
        (fun a b => a + BACKUP_REFRESH_RATE_LIMIT ≤ b) :=
  ⟨backup_refresh_rate_limited.1 0 1000 1000 1000 (by decide),
   backup_refresh_rate_limited.2.1 0 20000 20001 20002 (by decide) (by decide),
   backup_refresh_rate_limited.2.2 0
     [(20000, 20001, 20002), (30000, 30001, 30002), (36000, 36001, 36002)]
     ⟨by norm_num, by norm_num, by norm_num, by norm_num, by norm_num, by norm_num,
      by norm_num, by norm_num, by norm_num, trivial⟩⟩

/-- C6 (amended): characterization of `verify_claims` over every payload
and clock value, with the sums taken as the code takes them — in `u64`,
wrapping modulo 2^64: `ExpMissing` exactly when `exp` is absent; `Expired`
exactly when `(exp + allowed_clock_skew) mod 2^64 < now` (equality still
valid); `NotValidYet` exactly when the token is not expired, `nbf` is
present and `nbf > (now + allowed_clock_skew) mod 2^64`; success otherwise.
Whenever neither `u64` sum overflows — in particular for all realistic
timestamps — this coincides with the claim's plain-integer conditions
(second block).  (As stated the claim used unbounded integers for every
payload; for `exp ≥ 2^64 - skew` the release-build sum wraps and the code
reports `Expired` where the claim demands success — see the
counterexample.) -/
theorem verify_claims_characterization :
    ∀ (exp nbf : Option Nat) (skew now : Nat),
      ((verify_claims exp nbf skew now = .error .expMissing ↔ exp = none)
      ∧ (verify_claims exp nbf skew now = .error .expired ↔
          ∃ e, exp = some e ∧ (e + skew) % U64_SIZE < now)
      ∧ (verify_claims exp nbf skew now = .error .notValidYet ↔
          (∃ e, exp = some e ∧ now ≤ (e + skew) % U64_SIZE)
          ∧ ∃ n, nbf = some n ∧ (now + skew) % U64_SIZE < n)
      ∧ (verify_claims exp nbf skew now = .ok () ↔
          (∃ e, exp = some e ∧ now ≤ (e + skew) % U64_SIZE)
          ∧ ∀ n, nbf = some n → n ≤ (now + skew) % U64_SIZE))
      ∧ (∀ e, exp = some e → e + skew < U64_SIZE → now + skew < U64_SIZE →
          ((verify_claims exp nbf skew now = .error .expired ↔ e + skew < now)
          ∧ (verify_claims exp nbf skew now = .error .notValidYet ↔
              now ≤ e + skew ∧ ∃ n, nbf = some n ∧ now + skew < n)
          ∧ (verify_claims exp nbf skew now = .ok () ↔
              now ≤ e + skew ∧ ∀ n, nbf = some n → n ≤ now + skew))) := by
  intro exp nbf skew now
  constructor
  · rcases exp with _ | e
    · rcases nbf with _ | n <;> simp [verify_claims]
    · rcases nbf with _ | n <;> simp only [verify_claims] <;> split_ifs with h1 h2 <;>
        simp_all <;> omega
  · rintro e rfl hee hnn
    have he : (e + skew) % U64_SIZE = e + skew := Nat.mod_eq_of_lt hee
    have hn : (now + skew) % U64_SIZE = now + skew := Nat.mod_eq_of_lt hnn
    rcases nbf with _ | n <;> simp only [verify_claims, he, hn] <;>
      split_ifs with h1 h2 <;> simp_all <;> omega

/-- Witness for C6: a token with exp 100 and nbf 5 checked at time 10 with
3 s skew, where no u64 sum overflows: the amended theorem yields success,
matching the claim's plain-integer conditions. -/
theorem verify_claims_characterization_witness :
    verify_claims (some 100) (some 5) 3 10 = .ok () :=
  (((verify_claims_characterization (some 100) (some 5) 3 10).2 100 rfl
      (by norm_num [U64_SIZE]) (by norm_num [U64_SIZE])).2.2).mpr
    ⟨by norm_num, by intro n hn; injection hn with hn; omega⟩

/-- Counterexample to C6 as stated: exp = 2^64 - 1 is a representable u64,
and with skew 3 and now 10 the claim demands success (exp + skew >= now as
integers), but the release-build u64 sum wraps to 2, so the code reports
`Expired`. -/
theorem verify_claims_wraps_at_u64_max :
    verify_claims (some (U64_SIZE - 1)) none 3 10 = .error .expired
    ∧ ¬ (U64_SIZE - 1) + 3 < 10 := by
  constructor
  · rfl
  · norm_num [U64_SIZE]

/-- C10: `KeyManager::new` initializes the last-backup-refresh instant to
the construction instant, so every `backup_refresh` call whose first check
happens less than 15 s after construction (no backup refresh having run
before, i.e. the recorded instant is still the construction instant)
returns `false` and performs no fetch. -/
theorem backup_refresh_locked_out_after_construction :
    ∀ t0 t1 t2 t3 : Int,
      t1 - KeyManager_new_last_backup_refresh t0 < BACKUP_REFRESH_RATE_LIMIT →
      backup_refresh (KeyManager_new_last_backup_refresh t0) t1 t2 t3
        = ⟨false, t0, false⟩ := by
  intro t0 t1 t2 t3 h
  exact backup_refresh_eq_skip h

/-- Witness for C10: a call one second after construction. -/
theorem backup_refresh_locked_out_after_construction_witness :
    (1000 : Int) - KeyManager_new_last_backup_refresh 0 < BACKUP_REFRESH_RATE_LIMIT
    ∧ backup_refresh (KeyManager_new_last_backup_refresh 0) 1000 1001 1002
        = ⟨false, 0, false⟩ :=
  ⟨by decide,
   backup_refresh_locked_out_after_construction 0 1000 1001 1002 (by decide)⟩

theorem mem_collectReadableEvents :
    ∀ (l : List (String × List String)) (acc : List String) (id : String),
      id ∈ collectReadableEvents acc l ↔
        id ∈ acc ∨ ∃ item actions, (item, actions) ∈ l
          ∧ splitOnceColon item = some ("e", id) ∧ "read" ∈ actions := by
  intro l
  induction l with
  | nil => simp [collectReadableEvents]
  | cons head rest ih =>
    obtain ⟨item, actions⟩ := head
    intro acc id
    cases hsp : splitOnceColon item with
    | none =>
      have hstep : collectReadableEvents acc ((item, actions) :: rest)
          = collectReadableEvents acc rest := by
        simp [collectReadableEvents, hsp]
      rw [hstep, ih]
      constructor
      · rintro (h | ⟨i, a, hmem, h1, h2⟩)
        · exact Or.inl h
        · exact Or.inr ⟨i, a, List.mem_cons_of_mem _ hmem, h1, h2⟩
      · rintro (h | ⟨i, a, hmem, h1, h2⟩)
        · exact Or.inl h
        · rcases List.mem_cons.mp hmem with heq | hmem2
          · simp only [Prod.mk.injEq] at heq
            obtain ⟨rfl, rfl⟩ := heq
            rw [hsp] at h1
            cases h1
          · exact Or.inr ⟨i, a, hmem2, h1, h2⟩
    | some kp =>
      obtain ⟨kind, idv⟩ := kp
      by_cases hk : kind = "e"
      · subst hk
        by_cases hr : actions.any (fun a => a == "read")
        · have hstep : collectReadableEvents acc ((item, actions) :: rest)
              = collectReadableEvents (acc ++ [idv]) rest := by
            simp [collectReadableEvents, hsp, hr]
          have hread : "read" ∈ actions := by
            rcases List.any_eq_true.mp hr with ⟨x, hx, hbe⟩
            rw [beq_iff_eq] at hbe
            exact hbe ▸ hx
          rw [hstep, ih]
          simp only [List.mem_append, List.mem_singleton]
          constructor
          · rintro ((h | rfl) | ⟨i, a, hmem, h1, h2⟩)
            · exact Or.inl h
            · exact Or.inr ⟨item, actions, List.mem_cons_self _ _, hsp, hread⟩
            · exact Or.inr ⟨i, a, List.mem_cons_of_mem _ hmem, h1, h2⟩
          · rintro (h | ⟨i, a, hmem, h1, h2⟩)
            · exact Or.inl (Or.inl h)
            · rcases List.mem_cons.mp hmem with heq | hmem2
              · simp only [Prod.mk.injEq] at heq
                obtain ⟨rfl, rfl⟩ := heq
                rw [hsp] at h1
                simp only [Option.some.injEq, Prod.mk.injEq] at h1
                exact Or.inl (Or.inr h1.2.symm)
              · exact Or.inr ⟨i, a, hmem2, h1, h2⟩
        · have hstep : collectReadableEvents acc ((item, actions) :: rest)
              = collectReadableEvents acc rest := by
            simp [collectReadableEvents, hsp, hr]
          rw [hstep, ih]
          constructor
          · rintro (h | ⟨i, a, hmem, h1, h2⟩)
            · exact Or.inl h
            · exact Or.inr ⟨i, a, List.mem_cons_of_mem _ hmem, h1, h2⟩
          · rintro (h | ⟨i, a, hmem, h1, h2⟩)
            · exact Or.inl h
            · rcases List.mem_cons.mp hmem with heq | hmem2
              · simp only [Prod.mk.injEq] at heq
                obtain ⟨rfl, rfl⟩ := heq
                rw [hsp] at h1
                simp only [Option.some.injEq, Prod.mk.injEq] at h1
                obtain ⟨-, rfl⟩ := h1
                exact absurd (List.any_eq_true.mpr ⟨"read", h2, by simp⟩) hr
              · exact Or.inr ⟨i, a, hmem2, h1, h2⟩
      · have hstep : collectReadableEvents acc ((item, actions) :: rest)
            = collectReadableEvents acc rest := by
          simp [collectReadableEvents, hsp, hk]
        rw [hstep, ih]
        constructor
        · rintro (h | ⟨i, a, hmem, h1, h2⟩)
          · exact Or.inl h
          · exact Or.inr ⟨i, a, List.mem_cons_of_mem _ hmem, h1, h2⟩
        · rintro (h | ⟨i, a, hmem, h1, h2⟩)
          · exact Or.inl h
          · rcases List.mem_cons.mp hmem with heq | hmem2
            · simp only [Prod.mk.injEq] at heq
              obtain ⟨rfl, rfl⟩ := heq
              rw [hsp] at h1
              simp only [Option.some.injEq, Prod.mk.injEq] at h1
              exact absurd h1.1 hk
            · exact Or.inr ⟨i, a, hmem2, h1, h2⟩

/-- C1: `is_allowed` answers `true` exactly when a token is present, the
raced decode produced a payload (neither timeout nor error), and the token
either grants ROLE_ADMIN or grants read access to the path's event id; the
projection makes `is_admin` hold exactly when "ROLE_ADMIN" is among the
roles, and an id readable exactly when some `oc` key splits (at the first
colon) into kind "e" and that id with "read" among its actions — keys of
kinds "s", "p" or unknown contribute nothing. -/
theorem is_allowed_characterization :
    (∀ (event_id : String) (jwt : Option String) (decoded : DecodeOutcome),
      is_allowed event_id jwt decoded = true ↔
        (jwt.isSome = true ∧ ∃ q, decoded = DecodeOutcome.ok q ∧
          ((TokenInfo.from_payload q).is_admin = true
            ∨ event_id ∈ (TokenInfo.from_payload q).readable_events)))
    ∧ (∀ q : Payload,
        (TokenInfo.from_payload q).is_admin = true ↔ "ROLE_ADMIN" ∈ q.roles.getD [])
    ∧ (∀ (q : Payload) (id : String),
        id ∈ (TokenInfo.from_payload q).readable_events ↔
          ∃ item actions, (item, actions) ∈ q.oc.getD []
            ∧ splitOnceColon item = some ("e", id) ∧ "read" ∈ actions) := by
  refine ⟨?_, ?_, ?_⟩
  · intro event_id jwt decoded
    cases jwt with
    | none => simp [is_allowed]
    | some j =>
      cases decoded with
      | timeout => simp [is_allowed]
      | failed e => simp [is_allowed]
      | ok q =>
        by_cases ha : (TokenInfo.from_payload q).is_admin = true
        · simp [is_allowed, ha]
        · simp [is_allowed, ha, List.any_eq_true]
  · intro q
    simp [TokenInfo.from_payload, List.any_eq_true]
  · intro q id
    rw [show (TokenInfo.from_payload q).readable_events
        = collectReadableEvents [] (q.oc.getD []) from rfl]
    rw [mem_collectReadableEvents]
    simp

theorem verifyKeysLoop_ne_unsupportedAlg :
    ∀ (keys : List MKey) (algo : Algo) (found : Bool),
      verifyKeysLoop algo keys found ≠ .error .unsupportedAlg := by
  intro keys
  induction keys with
  | nil =>
    intro algo found
    cases found <;> simp [verifyKeysLoop]
  | cons k rest ih =>
    intro algo found
    simp only [verifyKeysLoop]
    split_ifs with h1 h2
    · exact ih algo found
    · simp
    · exact ih algo true

theorem from_str_eq_none_iff (s : String) :
    Algo.from_str s = none ↔ s ≠ "ES256" ∧ s ≠ "ES384" := by
  unfold Algo.from_str
  split <;> simp_all

/-- C2 (amended): token verification fails with `UnsupportedAlg` exactly
when the header's `alg` is neither "ES256" nor "ES384" — in particular a
token with `alg` = "EdDSA" does fail with `UnsupportedAlg` — and
`Key::from_jwk` constructs a verification key exactly for EC descriptors on
curve P-256 or P-384 (with usable point material, a consistent optional
`alg`, and `use` absent or "sig"); every other descriptor, OKP/Ed25519
included, is rejected. -/
theorem supported_algorithms :
    (∀ (alg : String) (sigDecodeOk : Bool) (keys : List MKey),
      verify_signature alg sigDecodeOk keys = .error .unsupportedAlg ↔
        (alg ≠ "ES256" ∧ alg ≠ "ES384"))
    ∧ (∀ jwk : Jwk, (∃ k, Key.from_jwk jwk = .ok k) ↔
        ((jwk.use_ = none ∨ jwk.use_ = some KeyUsage.signature)
          ∧ ∃ crv, jwk.key_data = KeyData.ec crv true
            ∧ ((crv = "P-256" ∧ (jwk.alg = none ∨ jwk.alg = some "ES256"))
              ∨ (crv = "P-384" ∧ (jwk.alg = none ∨ jwk.alg = some "ES384"))))) := by
  constructor
  · intro alg sigDecodeOk keys
    unfold verify_signature
    cases halg : Algo.from_str alg with
    | none =>
      simp only []
      rw [← from_str_eq_none_iff] at *
      simp [halg]
    | some a =>
      have : ¬ (alg ≠ "ES256" ∧ alg ≠ "ES384") := by
        rw [← from_str_eq_none_iff, halg]
        simp
      cases sigDecodeOk with
      | false => simp [this]
      | true => simp [this, verifyKeysLoop_ne_unsupportedAlg]
  · intro jwk
    rcases jwk with ⟨u, al, kid, kd⟩
    cases kd with
    | oct =>
      simp only [Key.from_jwk]
      split_ifs <;> simp
    | rsa =>
      simp only [Key.from_jwk]
      split_ifs <;> simp
    | ec crv pok =>
      rcases u with _ | u
      case some =>
        cases u with
        | encryption => simp [Key.from_jwk]
        | signature =>
          rcases al with _ | a
          · by_cases h2 : crv = "P-256"
            · subst h2; cases pok <;> simp [Key.from_jwk]
            · by_cases h3 : crv = "P-384"
              · subst h3; cases pok <;> simp [Key.from_jwk]
              · simp [Key.from_jwk, h2, h3]
          · by_cases h2 : crv = "P-256"
            · subst h2
              by_cases ha : a = "ES256"
              · subst ha; cases pok <;> simp [Key.from_jwk]
              · simp [Key.from_jwk, ha]
            · by_cases h3 : crv = "P-384"
              · subst h3
                by_cases ha : a = "ES384"
                · subst ha; cases pok <;> simp [Key.from_jwk]
                · simp [Key.from_jwk, ha]
              · simp [Key.from_jwk, h2, h3]
      case none =>
        rcases al with _ | a
        · by_cases h2 : crv = "P-256"
          · subst h2; cases pok <;> simp [Key.from_jwk]
          · by_cases h3 : crv = "P-384"
            · subst h3; cases pok <;> simp [Key.from_jwk]
            · simp [Key.from_jwk, h2, h3]
        · by_cases h2 : crv = "P-256"
          · subst h2
            by_cases ha : a = "ES256"
            · subst ha; cases pok <;> simp [Key.from_jwk]
            · simp [Key.from_jwk, ha]
          · by_cases h3 : crv = "P-384"
            · subst h3
              by_cases ha : a = "ES384"
              · subst ha; cases pok <;> simp [Key.from_jwk]
              · simp [Key.from_jwk, ha]
            · simp [Key.from_jwk, h2, h3]

/-- Counterexample to C2 as stated: the source only knows ES256 and ES384,
so a token whose header algorithm is "EdDSA" fails with `UnsupportedAlg`. -/
theorem supported_algorithms_counterexample :
    verify_signature "EdDSA" true [⟨Algo.ES256, true⟩] = .error .unsupportedAlg
    ∧ Algo.from_str "EdDSA" = none :=
  ⟨rfl, rfl⟩

theorem digitChar_mem_digits {m : Nat} (h : m < 10) :
    Nat.digitChar m ∈ ['0','1','2','3','4','5','6','7','8','9'] := by
  interval_cases m <;> decide

theorem toDigitsCore_mem_digits :
    ∀ (fuel n : Nat) (acc : List Char),
      (∀ c ∈ acc, c ∈ ['0','1','2','3','4','5','6','7','8','9']) →
      ∀ c ∈ Nat.toDigitsCore 10 fuel n acc, c ∈ ['0','1','2','3','4','5','6','7','8','9'] := by
  intro fuel
  induction fuel with
  | zero =>
    intro n acc hacc c hc
    simpa [Nat.toDigitsCore] using hacc c (by simpa [Nat.toDigitsCore] using hc)
  | succ f ih =>
    intro n acc hacc c hc
    rw [Nat.toDigitsCore] at hc
    by_cases h0 : n / 10 = 0
    · simp only [h0, if_true] at hc
      rcases List.mem_cons.mp hc with rfl | hmem
      · exact digitChar_mem_digits (Nat.mod_lt _ (by norm_num))
      · exact hacc c hmem
    · simp only [h0, if_false] at hc
      refine ih (n / 10) _ ?_ c hc
      intro x hx
      rcases List.mem_cons.mp hx with rfl | hmem
      · exact digitChar_mem_digits (Nat.mod_lt _ (by norm_num))
      · exact hacc x hmem

theorem toDigits_mem_digits (n : Nat) :
    ∀ c ∈ Nat.toDigits 10 n, c ∈ ['0','1','2','3','4','5','6','7','8','9'] := by
  intro c hc
  exact toDigitsCore_mem_digits (n + 1) n [] (by simp) c (by simpa [Nat.toDigits] using hc)

theorem etagChars_mem (a b k : Nat) :
    ∀ c ∈ etagChars a b k,
      c = '"' ∨ c = ':' ∨ c ∈ ['0','1','2','3','4','5','6','7','8','9'] := by
  intro c hc
  simp only [etagChars, List.mem_cons, List.mem_append] at hc
  rcases hc with rfl | hc
  · exact Or.inl rfl
  rcases hc with hc | hc
  · exact Or.inr (Or.inr (toDigits_mem_digits a c hc))
  rcases hc with rfl | hc
  · exact Or.inr (Or.inl rfl)
  rcases hc with hc | hc
  · exact Or.inr (Or.inr (toDigits_mem_digits b c hc))
  rcases hc with rfl | hc
  · exact Or.inr (Or.inl rfl)
  rcases hc with hc | hc
  · exact Or.inr (Or.inr (toDigits_mem_digits k c hc))
  rcases hc with rfl | h0
  · exact Or.inl rfl
  · cases h0

theorem etagChars_no_comma (a b k : Nat) : ∀ c ∈ etagChars a b k, ¬ c = ',' := by
  intro c hc
  rcases etagChars_mem a b k c hc with rfl | rfl | hd
  · decide
  · decide
  · fin_cases hd <;> decide

theorem etagChars_no_ws (a b k : Nat) : ∀ c ∈ etagChars a b k, isAsciiWs c = false := by
  intro c hc
  rcases etagChars_mem a b k c hc with rfl | rfl | hd
  · decide
  · decide
  · fin_cases hd <;> decide

theorem splitOnComma_of_no_comma :
    ∀ l : List Char, (∀ c ∈ l, ¬ c = ',') → splitOnComma l = [l] := by
  intro l
  induction l with
  | nil => intro; simp [splitOnComma]
  | cons c rest ih =>
    intro h
    have hc : (c == ',') = false := by
      simpa using h c (List.mem_cons_self _ _)
    have hrest := ih (fun x hx => h x (List.mem_cons_of_mem _ hx))
    simp [splitOnComma, hc, hrest]

theorem dropWhile_all_false {p : Char → Bool} :
    ∀ l : List Char, (∀ c ∈ l, p c = false) → l.dropWhile p = l := by
  intro l h
  cases l with
  | nil => rfl
  | cons c rest =>
    have := h c (List.mem_cons_self _ _)
    simp [List.dropWhile_cons, this]

theorem trimAsciiChars_of_no_ws (l : List Char) (h : ∀ c ∈ l, isAsciiWs c = false) :
    trimAsciiChars l = l := by
  unfold trimAsciiChars
  rw [dropWhile_all_false l h]
  rw [dropWhile_all_false l.reverse (fun c hc => h c (List.mem_reverse.mp hc))]
  exact List.reverse_reverse l

theorem stripWeakTag_quote (t : List Char) : stripWeakTag ('"' :: t) = '"' :: t := by
  simp [stripWeakTag, startsWithChars]

theorem etagChars_ne_star (a b k : Nat) : ¬ etagChars a b k = ['*'] := by
  simp [etagChars]

theorem is_unmodified_etag_match (a b k : Nat) (ims : Option Nat) (mt : Nat) :
    is_unmodified (some (etagChars a b k)) ims (etagChars a b k) mt = true := by
  rw [show is_unmodified (some (etagChars a b k)) ims (etagChars a b k) mt
      = (if etagChars a b k = ['*'] then true
        else ((splitOnComma (etagChars a b k)).map
            (fun t => stripWeakTag (trimAsciiChars t))).any
          (fun t => t == etagChars a b k)) from rfl]
  rw [if_neg (etagChars_ne_star a b k)]
  rw [splitOnComma_of_no_comma _ (etagChars_no_comma a b k)]
  rw [List.map_singleton, trimAsciiChars_of_no_ws _ (etagChars_no_ws a b k)]
  rw [show etagChars a b k = '"' :: (Nat.toDigits 10 a ++ (':' :: (Nat.toDigits 10 b
    ++ (':' :: (Nat.toDigits 10 k ++ ['"']))))) from rfl]
  rw [stripWeakTag_quote]
  simp

/-- C7 (amended): after the file-system steps succeed for a file with the
given metadata, a request whose If-None-Match header is exactly the file's
ETag gets 304 with an empty body; and a request without If-None-Match whose
If-Modified-Since parses to a whole second strictly later than the file's
(whole-second) Last-Modified value gets 304 with an empty body.  (As stated
the claim also demanded 304 for If-Modified-Since equal to Last-Modified;
the source compares `mtime < if_modified_since` strictly, so equality yields
200 — see the counterexample.) -/
theorem conditional_get_not_modified :
    ∀ (i : ServeFileIn) (m : FileMeta),
      i.canonicalizeRes = .ok () → i.escapesEventDir = false →
      i.openRes = .ok () → i.metadataRes = .ok m →
      ((i.if_none_match = some (etagChars m.mtime_ms m.size m.inode) →
          serve_file i = (304, BodyKind.empty))
        ∧ (i.if_none_match = none →
            ∀ t, i.if_modified_since = some t → lastModifiedSeconds m.mtime_ms < t →
              serve_file i = (304, BodyKind.empty))) := by
  intro i m h1 h2 h3 h4
  constructor
  · intro hinm
    simp only [serve_file, h1, h2, h3, h4, hinm]
    rw [is_unmodified_etag_match]
    simp
  · intro hinm t hims ht
    have hlt : m.mtime_ms < t * 1000 := by
      unfold lastModifiedSeconds at ht
      omega
    simp only [serve_file, h1, h2, h3, h4, hinm, hims]
    simp [is_unmodified, hlt]

/-- Witness for C7: a file with mtime 1234 ms, size 56, inode 7; one request
carrying exactly its ETag, one request carrying If-Modified-Since two
seconds past the epoch (Last-Modified renders second 1). -/
theorem conditional_get_not_modified_witness :
    serve_file ⟨.ok (), false, .ok (), .ok ⟨1234, 56, 7⟩,
        some (etagChars 1234 56 7), none, none, .ok ()⟩ = (304, BodyKind.empty)
    ∧ serve_file ⟨.ok (), false, .ok (), .ok ⟨1234, 56, 7⟩,
        none, some 2, none, .ok ()⟩ = (304, BodyKind.empty) :=
  ⟨(conditional_get_not_modified
      ⟨.ok (), false, .ok (), .ok ⟨1234, 56, 7⟩,
        some (etagChars 1234 56 7), none, none, .ok ()⟩
      ⟨1234, 56, 7⟩ rfl rfl rfl rfl).1 rfl,
   (conditional_get_not_modified
      ⟨.ok (), false, .ok (), .ok ⟨1234, 56, 7⟩, none, some 2, none, .ok ()⟩
      ⟨1234, 56, 7⟩ rfl rfl rfl rfl).2 rfl 2 rfl (by decide)⟩

/-- Counterexample to C7 as stated: a file whose mtime is 500 ms past the
epoch carries Last-Modified second 0; a request with If-Modified-Since equal
to that value (so T' = T, satisfying T' >= T) is answered 200 with the file
body, not 304. -/
theorem conditional_get_equal_date_not_304 :
    lastModifiedSeconds 500 = 0
    ∧ serve_file ⟨.ok (), false, .ok (), .ok ⟨500, 1, 2⟩,
        none, some 0, none, .ok ()⟩ = (200, BodyKind.file) := by
  decide

theorem handle_io_error_mem (e : IoErrorKind) : handle_io_error e ∈ amendedStatusSet := by
  cases e <;> decide

theorem serve_file_status_mem (i : ServeFileIn) : (serve_file i).1 ∈ amendedStatusSet := by
  obtain ⟨cr, esc, opr, mr, inm, ims, rh, sr⟩ := i
  cases cr with
  | error e => simpa [serve_file] using handle_io_error_mem e
  | ok u =>
    cases u
    cases esc
    case true => simp [serve_file]; decide
    case false =>
      cases opr with
      | error e => simpa [serve_file] using handle_io_error_mem e
      | ok u2 =>
        cases u2
        cases mr with
        | error e => simpa [serve_file] using handle_io_error_mem e
        | ok m =>
          by_cases hu :
            is_unmodified inm ims (etagChars m.mtime_ms m.size m.inode) m.mtime_ms = true
          · simp [serve_file, hu]; decide
          · rcases rh with _ | r
            · simp [serve_file, hu]; decide
            · cases r with
              | single s len =>
                cases sr with
                | error e => simpa [serve_file, hu] using handle_io_error_mem e
                | ok u3 => cases u3; simp [serve_file, hu]; decide
              | multi => simp [serve_file, hu]; decide
              | invalid => simp [serve_file, hu]; decide
              | noOverlap => simp [serve_file, hu]; decide

/-- C9 (amended): every response status the request handler can produce —
the OPTIONS preflight, the method/path rejections, the upstream-fallback
translations, both deny shapes, both empty allow shapes, and every
file-responder outcome including the I/O error mappings — lies in
{200, 204, 206, 304, 400, 403, 404, 405, 416, 500, 502, 503, 504}.  (As
stated the claim omitted 503, which `handle_io_error` produces for TimedOut
and ResourceBusy — see the counterexample.) -/
theorem handle_status_in_amended_set : ∀ h : HandleIn, handle h ∈ amendedStatusSet := by
  intro h
  obtain ⟨mth, pok, alw, fb, oc, od, oa, freq⟩ := h
  cases mth with
  | options => simp [handle]; decide
  | other => simp [handle]; decide
  | get =>
    cases pok
    case false => simp [handle]; decide
    case true =>
      by_cases hc : (alw = false ∧ fb ≠ FallbackModeM.none)
      · cases oc with
        | netError => simp [handle, hc, ask_opencast]; decide
        | timeout => simp [handle, hc, ask_opencast]; decide
        | status404 => simp [handle, hc, ask_opencast]; decide
        | ok2xx =>
          cases oa with
          | empty => simp [handle, hc, ask_opencast]; decide
          | xAccelRedirect => simp [handle, hc, ask_opencast]; decide
          | file => simpa [handle, hc, ask_opencast] using serve_file_status_mem freq
        | otherStatus =>
          cases od with
          | empty => simp [handle, hc, ask_opencast]; decide
          | xAccelRedirect => simp [handle, hc, ask_opencast]; decide
      · cases alw
        · have hfb : fb = FallbackModeM.none := by
            by_contra hne
            exact hc ⟨rfl, hne⟩
          subst hfb
          cases od with
          | empty => simp [handle]; decide
          | xAccelRedirect => simp [handle]; decide
        · cases oa with
          | empty => simp [handle, hc]; decide
          | xAccelRedirect => simp [handle, hc]; decide
          | file => simpa [handle, hc] using serve_file_status_mem freq

/-- Counterexample to C9 as stated: an allowed GET served from the file
system whose `File::open` fails with TimedOut is answered 503, a status
absent from the claimed wire-output set. -/
theorem handle_produces_503 :
    handle ⟨.get, true, true, .none, .ok2xx, .empty, .file,
      ⟨.ok (), false, .error .timedOut, .ok ⟨0, 1, 2⟩, none, none, none, .ok ()⟩⟩ = 503
    ∧ (503 : Nat) ∉ claimedStatusSet := by
  decide

theorem findSlashIdx_append (a t : List Char) (h : '/' ∉ a) :
    findSlashIdx (a ++ '/' :: t) = some a.length := by
  induction a with
  | nil => simp [findSlashIdx]
  | cons x xs ih =>
    have hmem : '/' ∉ xs := fun hm => h (List.mem_cons_of_mem _ hm)
    have hx : (x == '/') = false := by
      simp only [beq_eq_false_iff_ne]
      intro e
      exact h (by simp [e])
    simp [findSlashIdx, hx, ih hmem]

/-- C8 (amended): the round trip holds for any path of the shape
"/P/a/b/c/d" (with `a`, `b`, `c` non-empty slash-free segments and a
non-empty suffix `d`) whenever the FIRST configured prefix that matches the
path is `P` itself — so that the matched prefix is followed by a slash in
the path — and the four slash positions fit the parser's `u16` indices
(`|P| + |a| + |b| + |c| + 4 < 2^16`; the suffix `d` is never indexed and
may be arbitrarily long): then parse succeeds and the concatenation
"/" + prefix() + "/" + org() + "/" + channel() + "/" + event_id() + "/" + suffix()
reconstructs the path exactly.  (As stated the claim quantified over every
valid configuration and every segment length; an earlier configured prefix
that matches only part of the intended prefix segment shifts all indices
and breaks reconstruction — see the counterexample — and segments past the
`u16` range make the source panic or wrap instead of parsing.) -/
theorem parse_round_trip :
    ∀ (cfg : List (List Char)) (P a b c d : List Char),
      a ≠ [] → b ≠ [] → c ≠ [] → d ≠ [] →
      '/' ∉ a → '/' ∉ b → '/' ∉ c →
      P.length + a.length + b.length + c.length + 4 < U16_SIZE →
      (cfg.map trimSlashes).find?
          (fun q => startsWithChars ((mkPath P a b c d).drop 1) q) = some P →
      ∃ parts, PathParts.parse (mkPath P a b c d) cfg = ParseResult.ok parts
        ∧ parts.rebuild = mkPath P a b c d := by
  intro cfg P a b c d ha hb hc hd hsa hsb hsc hbound hfind
  have hshape : mkPath P a b c d
      = '/' :: (P ++ '/' :: (a ++ '/' :: (b ++ '/' :: (c ++ '/' :: d)))) := by
    simp [mkPath]
  have hlen : (mkPath P a b c d).length
      = P.length + a.length + b.length + c.length + d.length + 5 := by
    simp only [mkPath, List.length_append, List.length_cons]
    omega
  -- Four drop equations, one per separator position past the matched piece.
  have hsh1 : mkPath P a b c d
      = (('/' :: P) ++ ['/']) ++ (a ++ '/' :: (b ++ '/' :: (c ++ '/' :: d))) := by
    simp [mkPath]
  have hl1 : (('/' :: P) ++ ['/']).length = P.length + 2 := by
    simp
  have hdrop1 : (mkPath P a b c d).drop (P.length + 2)
      = a ++ '/' :: (b ++ '/' :: (c ++ '/' :: d)) := by
    rw [hsh1, ← hl1]
    exact List.drop_left _ _
  have hsh2 : mkPath P a b c d
      = (('/' :: P) ++ ('/' :: a) ++ ['/']) ++ (b ++ '/' :: (c ++ '/' :: d)) := by
    simp [mkPath]
  have hl2 : (('/' :: P) ++ ('/' :: a) ++ ['/']).length = P.length + a.length + 3 := by
    simp only [List.length_append, List.length_cons, List.length_nil]
    omega
  have hdrop2 : (mkPath P a b c d).drop (P.length + a.length + 3)
      = b ++ '/' :: (c ++ '/' :: d) := by
    rw [hsh2, ← hl2]
    exact List.drop_left _ _
  have hsh3 : mkPath P a b c d
      = (('/' :: P) ++ ('/' :: a) ++ ('/' :: b) ++ ['/']) ++ (c ++ '/' :: d) := by
    simp [mkPath]
  have hl3 : (('/' :: P) ++ ('/' :: a) ++ ('/' :: b) ++ ['/']).length
      = P.length + a.length + b.length + 4 := by
    simp only [List.length_append, List.length_cons, List.length_nil]
    omega
  have hdrop3 : (mkPath P a b c d).drop (P.length + a.length + b.length + 4)
      = c ++ '/' :: d := by
    rw [hsh3, ← hl3]
    exact List.drop_left _ _
  have hsh4 : mkPath P a b c d
      = (('/' :: P) ++ ('/' :: a) ++ ('/' :: b) ++ ('/' :: c) ++ ['/']) ++ d := by
    simp [mkPath]
  have hl4 : (('/' :: P) ++ ('/' :: a) ++ ('/' :: b) ++ ('/' :: c) ++ ['/']).length
      = P.length + a.length + b.length + c.length + 5 := by
    simp only [List.length_append, List.length_cons, List.length_nil]
    omega
  have hdrop4 : (mkPath P a b c d).drop (P.length + a.length + b.length + c.length + 5)
      = d := by
    rw [hsh4, ← hl4]
    exact List.drop_left _ _
  -- The three find_after calls.
  have hfa1 : findAfter (mkPath P a b c d) (P.length + 1)
      = .ok (some (P.length + a.length + 2)) := by
    unfold findAfter
    rw [if_neg (by rw [hlen]; omega)]
    rw [show P.length + 1 + 1 = P.length + 2 from rfl, hdrop1]
    simp only [findSlashIdx_append a _ hsa]
    rw [if_neg (show ¬ a.length ≥ U16_SIZE by omega)]
    rw [Nat.mod_eq_of_lt (show a.length + (P.length + 1) + 1 < U16_SIZE by omega)]
    simp only [Except.ok.injEq, Option.some.injEq]
    omega
  have hfa2 : findAfter (mkPath P a b c d) (P.length + a.length + 2)
      = .ok (some (P.length + a.length + b.length + 3)) := by
    unfold findAfter
    rw [if_neg (by rw [hlen]; omega)]
    rw [show P.length + a.length + 2 + 1 = P.length + a.length + 3 from rfl, hdrop2]
    simp only [findSlashIdx_append b _ hsb]
    rw [if_neg (show ¬ b.length ≥ U16_SIZE by omega)]
    rw [Nat.mod_eq_of_lt
      (show b.length + (P.length + a.length + 2) + 1 < U16_SIZE by omega)]
    simp only [Except.ok.injEq, Option.some.injEq]
    omega
  have hfa3 : findAfter (mkPath P a b c d) (P.length + a.length + b.length + 3)
      = .ok (some (P.length + a.length + b.length + c.length + 4)) := by
    unfold findAfter
    rw [if_neg (by rw [hlen]; omega)]
    rw [show P.length + a.length + b.length + 3 + 1
        = P.length + a.length + b.length + 4 from rfl, hdrop3]
    simp only [findSlashIdx_append c _ hsc]
    rw [if_neg (show ¬ c.length ≥ U16_SIZE by omega)]
    rw [Nat.mod_eq_of_lt
      (show c.length + (P.length + a.length + b.length + 3) + 1 < U16_SIZE by omega)]
    simp only [Except.ok.injEq, Option.some.injEq]
    omega
  -- Evaluate the parser.
  have hparse : PathParts.parse (mkPath P a b c d) cfg
      = ParseResult.ok ⟨mkPath P a b c d, P.length + 1, P.length + a.length + 2,
          P.length + a.length + b.length + 3,
          P.length + a.length + b.length + c.length + 4⟩ := by
    unfold PathParts.parse
    rw [if_neg (by rw [hshape]; simp)]
    simp only [hfind]
    rw [if_neg (show ¬ P.length ≥ U16_SIZE by omega)]
    rw [Nat.mod_eq_of_lt (show P.length + 1 < U16_SIZE by omega)]
    simp only [hfa1, hfa2, hfa3]
  -- Evaluate the five accessors at the produced indices.
  have hpfx : (PathParts.mk (mkPath P a b c d) (P.length + 1) (P.length + a.length + 2)
      (P.length + a.length + b.length + 3)
      (P.length + a.length + b.length + c.length + 4)).pfxPart = P := by
    unfold PathParts.pfxPart
    rw [show (mkPath P a b c d).drop 1
        = P ++ '/' :: (a ++ '/' :: (b ++ '/' :: (c ++ '/' :: d))) by rw [hshape]; simp]
    rw [show P.length + 1 - 1 = P.length from by omega]
    exact List.take_left _ _
  have horg : (PathParts.mk (mkPath P a b c d) (P.length + 1) (P.length + a.length + 2)
      (P.length + a.length + b.length + 3)
      (P.length + a.length + b.length + c.length + 4)).org = a := by
    unfold PathParts.org
    rw [show P.length + 1 + 1 = P.length + 2 from rfl, hdrop1]
    rw [show P.length + a.length + 2 - (P.length + 1) - 1 = a.length from by omega]
    exact List.take_left _ _
  have hchan : (PathParts.mk (mkPath P a b c d) (P.length + 1) (P.length + a.length + 2)
      (P.length + a.length + b.length + 3)
      (P.length + a.length + b.length + c.length + 4)).channel = b := by
    unfold PathParts.channel
    rw [show P.length + a.length + 2 + 1 = P.length + a.length + 3 from rfl, hdrop2]
    rw [show P.length + a.length + b.length + 3 - (P.length + a.length + 2) - 1
        = b.length from by omega]
    exact List.take_left _ _
  have hevent : (PathParts.mk (mkPath P a b c d) (P.length + 1) (P.length + a.length + 2)
      (P.length + a.length + b.length + 3)
      (P.length + a.length + b.length + c.length + 4)).event_id = c := by
    unfold PathParts.event_id
    rw [show P.length + a.length + b.length + 3 + 1
        = P.length + a.length + b.length + 4 from rfl, hdrop3]
    rw [show P.length + a.length + b.length + c.length + 4
        - (P.length + a.length + b.length + 3) - 1 = c.length from by omega]
    exact List.take_left _ _
  have hsfx : (PathParts.mk (mkPath P a b c d) (P.length + 1) (P.length + a.length + 2)
      (P.length + a.length + b.length + 3)
      (P.length + a.length + b.length + c.length + 4)).sfxPart = d := by
    unfold PathParts.sfxPart
    rw [show P.length + a.length + b.length + c.length + 4 + 1
        = P.length + a.length + b.length + c.length + 5 from rfl, hdrop4]
  refine ⟨_, hparse, ?_⟩
  unfold PathParts.rebuild
  rw [hpfx, horg, hchan, hevent, hsfx]
  simp [mkPath]

/-- Witness for C8: the default configuration `["/static"]` and the path
"/static/o/ch/ev/f.txt"; the first matching configured prefix is "static"
itself, parse succeeds and the concatenation rebuilds the path. -/
theorem parse_round_trip_witness :
    ((["/static".data].map trimSlashes).find?
        (fun q => startsWithChars ((mkPath ("static".data) ("o".data) ("ch".data)
          ("ev".data) ("f.txt".data)).drop 1) q) = some ("static".data))
    ∧ ∃ parts,
        PathParts.parse (mkPath ("static".data) ("o".data) ("ch".data)
            ("ev".data) ("f.txt".data)) ["/static".data] = ParseResult.ok parts
        ∧ parts.rebuild = mkPath ("static".data) ("o".data) ("ch".data)
            ("ev".data) ("f.txt".data) :=
  ⟨by decide,
   parse_round_trip ["/static".data] ("static".data) ("o".data) ("ch".data)
     ("ev".data) ("f.txt".data) (by decide) (by decide) (by decide) (by decide)
     (by decide) (by decide) (by decide) (by decide) (by decide)⟩

/-- Counterexample to C8 as stated: with the valid configuration
`["/sta", "/static"]` the path "/static/a/b/c/d" starts with the configured
prefix "static" followed by four non-empty segments, but parse matches the
earlier configured prefix "sta", so the parts are shifted and the
concatenation yields "/sta/ic/a/b/c/d", not the original path. -/
theorem parse_round_trip_counterexample :
    ("/static/a/b/c/d".data
        = mkPath ("static".data) ("a".data) ("b".data) ("c".data) ("d".data))
    ∧ ("static".data ∈ ["/sta".data, "/static".data].map trimSlashes)
    ∧ PathParts.parse ("/static/a/b/c/d".data) ["/sta".data, "/static".data]
        = ParseResult.ok ⟨"/static/a/b/c/d".data, 4, 7, 9, 11⟩
    ∧ PathParts.rebuild ⟨"/static/a/b/c/d".data, 4, 7, 9, 11⟩
        ≠ "/static/a/b/c/d".data := by
  decide
